import Mathlib

/-
  Verification of the AES Key Wrap library (RFC 3394 / RFC 5649 style),
  shallow embedding of src/lib.rs.

  Bytes are modelled as `List Nat` (each element intended < 256, written
  `Bytes`).  The AES block cipher is out of scope for the library (it is a
  supplied capability), so every embedded function is parameterized by a
  cipher family `fam : List Nat → Cipher`, standing for the
  `Aes128Ecb/Aes192Ecb/Aes256Ecb::new(kek)` instances; the dispatch on
  `kek.len()` selects which instantiation runs, exactly as in the source.

  The library reports every failure by *panicking* (`panic!` in the source:
  unsupported KEK length, integrity-check failure) or by aborting on an
  arithmetic underflow / out-of-range slice.  A Rust panic aborts the call
  without returning; we model each abort as the `KwResult.panic` outcome,
  tagged with the reason.  The source's return types (`Vec<u8>` etc.) are
  infallible, so there is no typed-error constructor: `KwResult` has only
  `ok` and `panic`.
-/

/-- Reasons for which a call of the library aborts instead of returning.
Each constructor corresponds to an abort site in src/lib.rs. -/
inductive Panic where
  /-- the `_ => panic!("kek is not supported: ...")` arms of the four
  dispatch functions. -/
  | unsupportedKek : Panic
  /-- `aes_unwrap_key`'s `panic!("ERROR")` when the recovered IV is not
  `IV_3394`, and `aes_unwrap_key_with_pad`'s
  `panic!("Integrity Check Failed: ...")`. -/
  | integrityCheckFailed : Panic
  /-- the abort caused by `wrapped.len() / 8 - 1` when `wrapped.len() < 8`:
  in a debug build the usize subtraction itself panics; in a release build
  it wraps around and the subsequent slice `wrapped[..8]` panics
  out-of-range.  Either way the call aborts without returning. -/
  | usizeUnderflow : Panic
  /-- an out-of-range slice index, e.g. `key[..key_len]` with
  `key_len > key.len()` in `aes_unwrap_key_with_pad`, or `iv[..8]` with a
  short IV in `aes_wrap_key_and_iv`. -/
  | sliceOutOfRange : Panic
deriving DecidableEq, Repr

/-- Outcome of a call: a returned value, or an abort (Rust panic). -/
inductive KwResult (α : Type) where
  | ok : α → KwResult α
  | panic : Panic → KwResult α
deriving DecidableEq, Repr

/-- The supplied single-block cipher capability (`encrypt`/`decrypt` of the
`crypto2` ECB types, acting on one 16-byte block). -/
structure Cipher where
  enc : List Nat → List Nat
  dec : List Nat → List Nat

/-- `l` is a genuine byte string: every element is < 256. -/
def Bytes (l : List Nat) : Prop := ∀ x ∈ l, x < 256

instance (l : List Nat) : Decidable (Bytes l) :=
  List.decidableBAll _ l

/-- The block-cipher contract the library relies on (spec §1: a 16-byte
block cipher with `decrypt` inverting `encrypt`). -/
structure GoodCipher (C : Cipher) : Prop where
  enc_length : ∀ b : List Nat, b.length = 16 → Bytes b → (C.enc b).length = 16
  enc_bytes : ∀ b : List Nat, b.length = 16 → Bytes b → Bytes (C.enc b)
  dec_enc : ∀ b : List Nat, b.length = 16 → Bytes b → C.dec (C.enc b) = b

/-- `pub const IV_3394: [u8; 8]` (RFC 3394 §2.2.3.1 constant). -/
def IV_3394 : List Nat := [0xa6, 0xa6, 0xa6, 0xa6, 0xa6, 0xa6, 0xa6, 0xa6]

/-- `pub const IV_5649: [u8; 4]` (RFC 5649 §3 constant). -/
def IV_5649 : List Nat := [0xa6, 0x59, 0x59, 0xa6]

/-- `fn u64_from_be_u8(buffer: &[u8; 8]) -> u64`: big-endian recombination
`b[7] | b[6] << 8 | ... | b[0] << 56`.  On byte values the `|` of the
disjoint shifted summands is addition, which is how we write it. -/
def u64_from_be_u8 (b : List Nat) : Nat :=
  b.getD 7 0 + b.getD 6 0 * 2 ^ 8 + b.getD 5 0 * 2 ^ 16 + b.getD 4 0 * 2 ^ 24 +
    b.getD 3 0 * 2 ^ 32 + b.getD 2 0 * 2 ^ 40 + b.getD 1 0 * 2 ^ 48 +
    b.getD 0 0 * 2 ^ 56

/-- `fn u32_from_be_u8(buffer: &[u8; 4]) -> u32`: big-endian recombination
`b[3] | b[2] << 8 | b[1] << 16 | b[0] << 24`, written with addition as
above. -/
def u32_from_be_u8 (b : List Nat) : Nat :=
  b.getD 3 0 + b.getD 2 0 * 2 ^ 8 + b.getD 1 0 * 2 ^ 16 + b.getD 0 0 * 2 ^ 24

/-- `u64::to_be_bytes`: the 8 big-endian bytes of a `u64` value. -/
def u64_to_be_u8 (a : Nat) : List Nat :=
  [a / 2 ^ 56 % 256, a / 2 ^ 48 % 256, a / 2 ^ 40 % 256, a / 2 ^ 32 % 256,
   a / 2 ^ 24 % 256, a / 2 ^ 16 % 256, a / 2 ^ 8 % 256, a % 256]

/-- `(len as u32).to_be_bytes()`: the 4 big-endian bytes of a length cast
to `u32` (the cast wraps modulo 2^32). -/
def u32_to_be_u8 (len : Nat) : List Nat :=
  [len % 2 ^ 32 / 2 ^ 24 % 256, len % 2 ^ 32 / 2 ^ 16 % 256,
   len % 2 ^ 32 / 2 ^ 8 % 256, len % 2 ^ 32 % 256]

/-- The 8-byte blocks `R[1..n]` sliced out of `l`: block `i` (0-based here,
1-based in the source) is `l[i*8 .. i*8+8]`, as built by the `r.push(..)`
loops of both `aes_wrap_key_and_iv` and `aes_unwrap_key_and_iv`. -/
def blocksOf (n : Nat) (l : List Nat) : List (List Nat) :=
  (List.range n).map (fun i => (l.drop (i * 8)).take 8)

/-- One ascending inner pass of the wrap loop (`for i in 1..n + 1` in
`aes_wrap_key_and_iv`), over the blocks `rs`, with running counter `t`
(`t = n*j + i` at block `i`; the source casts it with `as u64`, hence the
`% 2^64`).  Each step encrypts `A || R[i]`, XORs the counter into the high
half to give the new `A`, and keeps the low half as the new `R[i]`. -/
def wrapPass (C : Cipher) (a : Nat) (rs : List (List Nat)) (t : Nat) :
    Nat × List (List Nat) :=
  match rs with
  | [] => (a, [])
  | ri :: rest =>
    let c := C.enc (u64_to_be_u8 a ++ ri)
    let a1 := u64_from_be_u8 (c.take 8) ^^^ t % 2 ^ 64
    let s := wrapPass C a1 rest (t + 1)
    (s.1, c.drop 8 :: s.2)

/-- One descending inner pass of the unwrap loop (`for i in (1..n + 1).rev()`
in `aes_unwrap_key_and_iv`): the blocks to the right of `R[i]` are
processed first (they carry the larger counters), then `(A XOR t) || R[i]`
is decrypted; the high half is the new `A`, the low half the new `R[i]`. -/
def unwrapPass (C : Cipher) (a : Nat) (rs : List (List Nat)) (t : Nat) :
    Nat × List (List Nat) :=
  match rs with
  | [] => (a, [])
  | ri :: rest =>
    let s := unwrapPass C a rest (t + 1)
    let p := C.dec (u64_to_be_u8 (s.1 ^^^ t % 2 ^ 64) ++ ri)
    (u64_from_be_u8 (p.take 8), p.drop 8 :: s.2)

/-- Body of the `aes_wrap_key_and_iv` method of the generated
`Aes128Kw/Aes192Kw/Aes256Kw` structs: `n = plaintext.len() / 8` (trailing
bytes beyond the last full block are silently ignored by the slicing),
`A = u64(iv[..8])` (the slice `iv[..8]` panics when the IV is shorter than
8 bytes), then six ascending rounds `j = 0..5`, finally `A || R[1..n]`. -/
def aes_wrap_key_and_iv_core (C : Cipher) (plaintext iv : List Nat) :
    KwResult (List Nat) :=
  if iv.length < 8 then .panic .sliceOutOfRange
  else
    let n := plaintext.length / 8
    let s := (List.range 6).foldl (fun s j => wrapPass C s.1 s.2 (n * j + 1))
      (u64_from_be_u8 (iv.take 8), blocksOf n plaintext)
    .ok (u64_to_be_u8 s.1 ++ s.2.flatten)

/-- Body of the `aes_unwrap_key_and_iv` method: `n = wrapped.len() / 8 - 1`
(the subtraction underflows and the call aborts when `wrapped.len() < 8`),
`A` = first 8 bytes, `R[1..n]` = the following blocks, then six descending
rounds `j = 5..0`; returns the concatenated `R` blocks and the final `A`
as recovered IV. -/
def aes_unwrap_key_and_iv_core (C : Cipher) (wrapped : List Nat) :
    KwResult (List Nat × List Nat) :=
  if wrapped.length < 8 then .panic .usizeUnderflow
  else
    let n := wrapped.length / 8 - 1
    let s := ((List.range 6).reverse).foldl
      (fun s j => unwrapPass C s.1 s.2 (n * j + 1))
      (u64_from_be_u8 (wrapped.take 8), blocksOf n (wrapped.drop 8))
    .ok (s.2.flatten, u64_to_be_u8 s.1)

/-- `pub fn aes_wrap_key_and_iv`: dispatch on `kek.len()` (the source's
`match` over `16 | 24 | 32`, any other length panics before any cipher
work). -/
def aes_wrap_key_and_iv (fam : List Nat → Cipher) (kek plaintext iv : List Nat) :
    KwResult (List Nat) :=
  if kek.length = 16 then aes_wrap_key_and_iv_core (fam kek) plaintext iv
  else if kek.length = 24 then aes_wrap_key_and_iv_core (fam kek) plaintext iv
  else if kek.length = 32 then aes_wrap_key_and_iv_core (fam kek) plaintext iv
  else .panic .unsupportedKek

/-- `pub fn aes_unwrap_key_and_iv`: dispatch on `kek.len()`. -/
def aes_unwrap_key_and_iv (fam : List Nat → Cipher) (kek wrapped : List Nat) :
    KwResult (List Nat × List Nat) :=
  if kek.length = 16 then aes_unwrap_key_and_iv_core (fam kek) wrapped
  else if kek.length = 24 then aes_unwrap_key_and_iv_core (fam kek) wrapped
  else if kek.length = 32 then aes_unwrap_key_and_iv_core (fam kek) wrapped
  else .panic .unsupportedKek

/-- `pub fn aes_wrap_key`: wrap with the default RFC 3394 IV. -/
def aes_wrap_key (fam : List Nat → Cipher) (kek plaintext : List Nat) :
    KwResult (List Nat) :=
  aes_wrap_key_and_iv fam kek plaintext IV_3394

/-- `pub fn aes_unwrap_key`: unwrap, then `panic!("ERROR")` unless the
recovered IV equals `IV_3394`. -/
def aes_unwrap_key (fam : List Nat → Cipher) (kek wrapped : List Nat) :
    KwResult (List Nat) :=
  match aes_unwrap_key_and_iv fam kek wrapped with
  | .panic e => .panic e
  | .ok (key, key_iv) =>
    if key_iv = IV_3394 then .ok key else .panic .integrityCheckFailed

/-- The number of zero bytes `aes_wrap_key_with_pad` appends:
`((8 - plaintext.len() as i32) % 8).abs() as usize`.  The cast `as i32`
wraps modulo 2^32 (then reads the value as signed), `%` is Rust's
truncated remainder, and `|v tmod 8| = |v| % 8`; spelling the three sign
regions out gives the closed form below.  Note this is NOT the RFC 5649
pad count `(8 - len % 8) % 8`: for `len > 8` it returns `len % 8`. -/
def padCount (len : Nat) : Nat :=
  let m := len % 2 ^ 32
  if m ≤ 8 then (8 - m) % 8
  else if m < 2 ^ 31 then m % 8
  else (2 ^ 32 + 8 - m) % 8

/-- Body of the `aes_wrap_key_with_pad` method: build the alternate IV
`A6 59 59 A6 || be32(len)`, append `padCount` zero bytes, then either the
single-block short path (padded length exactly 8) or the chaining engine
via the dispatching `aes_wrap_key_and_iv`. -/
def aes_wrap_key_with_pad_core (fam : List Nat → Cipher) (kek plaintext : List Nat) :
    KwResult (List Nat) :=
  let iv := IV_5649 ++ u32_to_be_u8 plaintext.length
  let pad_pt := plaintext ++ List.replicate (padCount plaintext.length) 0
  if pad_pt.length = 8 then .ok ((fam kek).enc (iv ++ pad_pt))
  else aes_wrap_key_and_iv fam kek pad_pt iv

/-- `pub fn aes_wrap_key_with_pad`: dispatch on `kek.len()`. -/
def aes_wrap_key_with_pad (fam : List Nat → Cipher) (kek plaintext : List Nat) :
    KwResult (List Nat) :=
  if kek.length = 16 then aes_wrap_key_with_pad_core fam kek plaintext
  else if kek.length = 24 then aes_wrap_key_with_pad_core fam kek plaintext
  else if kek.length = 32 then aes_wrap_key_with_pad_core fam kek plaintext
  else .panic .unsupportedKek

/-- The first half of the `aes_unwrap_key_with_pad` method: recover the
candidate key material and the IV register, either by decrypting the
single block directly (`wrapped.len() == 16`) or through the dispatching
`aes_unwrap_key_and_iv`. -/
def padRecover (fam : List Nat → Cipher) (kek wrapped : List Nat) :
    KwResult (List Nat × List Nat) :=
  if wrapped.length = 16 then
    let p := (fam kek).dec wrapped
    .ok (p.drop 8, p.take 8)
  else aes_unwrap_key_and_iv fam kek wrapped

/-- Second half of the `aes_unwrap_key_with_pad` method: panic unless the
first 4 bytes of the IV register equal `IV_5649`, decode the declared
length from the next 4 bytes, and return `key[..key_len]` — which panics
out-of-range when `key_len > key.len()`.  (The guard on `key_iv` being at
least 8 bytes models the `key_iv[..4]` slice panic and the unchecked
4-byte read at `key_iv[4..]`; with a length-preserving cipher `key_iv`
always has exactly 8 bytes and the guard is never taken.) -/
def aes_unwrap_key_with_pad_core (fam : List Nat → Cipher) (kek wrapped : List Nat) :
    KwResult (List Nat) :=
  match padRecover fam kek wrapped with
  | .panic e => .panic e
  | .ok (key, key_iv) =>
    if key_iv.length < 8 then .panic .sliceOutOfRange
    else if IV_5649 = key_iv.take 4 then
      let key_len := u32_from_be_u8 ((key_iv.drop 4).take 4)
      if key.length < key_len then .panic .sliceOutOfRange
      else .ok (key.take key_len)
    else .panic .integrityCheckFailed

/-- `pub fn aes_unwrap_key_with_pad`: dispatch on `kek.len()`. -/
def aes_unwrap_key_with_pad (fam : List Nat → Cipher) (kek wrapped : List Nat) :
    KwResult (List Nat) :=
  if kek.length = 16 then aes_unwrap_key_with_pad_core fam kek wrapped
  else if kek.length = 24 then aes_unwrap_key_with_pad_core fam kek wrapped
  else if kek.length = 32 then aes_unwrap_key_with_pad_core fam kek wrapped
  else .panic .unsupportedKek

/-- Unpadded round trip: wrap with the default IV, then unwrap. -/
def roundtripUnpadded (fam : List Nat → Cipher) (kek pt : List Nat) :
    KwResult (List Nat) :=
  match aes_wrap_key fam kek pt with
  | .ok w => aes_unwrap_key fam kek w
  | .panic e => .panic e

/-- Padded round trip: wrap with padding, then unwrap with padding. -/
def roundtripPad (fam : List Nat → Cipher) (kek pt : List Nat) :
    KwResult (List Nat) :=
  match aes_wrap_key_with_pad fam kek pt with
  | .ok w => aes_unwrap_key_with_pad fam kek w
  | .panic e => .panic e

/-- A concrete cipher for witnesses and counterexamples: the identity on
blocks.  It satisfies the `GoodCipher` contract (it preserves 16-byte byte
strings and `dec` inverts `enc`), so any behaviour exhibited with it is
behaviour the library exhibits with a legitimate block cipher. -/
def idCipher : Cipher := ⟨fun b => b, fun b => b⟩

/-- The identity cipher family (one `idCipher` for every KEK). -/
def idFam : List Nat → Cipher := fun _ => idCipher

/-- Modelled from the spec: one step of the RFC 3394 wrap as §4.1 words it,
at round `j` and 1-based block index `i`: form `A || R[i]`, encrypt,
take the high 8 bytes as the new `A`, XOR in the 64-bit counter
`t = n*j + i`, and store the low 8 bytes back into slot `i` of the
register array. -/
def specWrapStep (C : Cipher) (n : Nat) (s : Nat × List (List Nat)) (j i : Nat) :
    Nat × List (List Nat) :=
  let c := C.enc (u64_to_be_u8 s.1 ++ s.2.getD (i - 1) [])
  (u64_from_be_u8 (c.take 8) ^^^ (n * j + i) % 2 ^ 64, s.2.set (i - 1) (c.drop 8))

/-- Modelled from the spec: one round `j` of the RFC 3394 wrap — the steps
for `i = 1..n` in ascending order. -/
def specWrapRound (C : Cipher) (n : Nat) (s : Nat × List (List Nat)) (j : Nat) :
    Nat × List (List Nat) :=
  ((List.range n).map (fun k => k + 1)).foldl
    (fun s i => specWrapStep C n s j i) s

/-- Modelled from the spec: the full RFC 3394 wrap state transform — six
rounds `j = 0..5` over the initial accumulator `A0` and register array
`R0`. -/
def specWrap (C : Cipher) (n : Nat) (A0 : Nat) (R0 : List (List Nat)) :
    Nat × List (List Nat) :=
  (List.range 6).foldl (fun s j => specWrapRound C n s j) (A0, R0)

theorem idCipher_good : GoodCipher idCipher :=
  ⟨fun _ h _ => h, fun _ _ hb => hb, fun _ _ _ => rfl⟩

/-! ### Byte-string and 64-bit register arithmetic -/

theorem getD_lt_of_bytes (b : List Nat) (hb : Bytes b) (i : Nat) :
    b.getD i 0 < 256 := by
  induction b generalizing i with
  | nil => simp [List.getD]
  | cons x t ih =>
    cases i with
    | zero => exact hb x (by simp)
    | succ j => exact ih (fun y hy => hb y (by simp [hy])) j

theorem bytes_append (l r : List Nat) (hl : Bytes l) (hr : Bytes r) :
    Bytes (l ++ r) := by
  intro x hx
  rcases List.mem_append.mp hx with h | h
  · exact hl x h
  · exact hr x h

theorem bytes_take (l : List Nat) (hl : Bytes l) (n : Nat) :
    Bytes (l.take n) :=
  fun x hx => hl x (List.take_subset n l hx)

theorem bytes_drop (l : List Nat) (hl : Bytes l) (n : Nat) :
    Bytes (l.drop n) :=
  fun x hx => hl x (List.drop_subset n l hx)

theorem u64_to_be_u8_length (a : Nat) : (u64_to_be_u8 a).length = 8 := rfl

theorem u64_to_be_u8_bytes (a : Nat) : Bytes (u64_to_be_u8 a) := by
  intro x hx
  simp only [u64_to_be_u8, List.mem_cons, List.not_mem_nil, or_false] at hx
  rcases hx with h | h | h | h | h | h | h | h <;> subst h <;>
    exact Nat.mod_lt _ (by decide)

theorem u64_from_be_u8_lt (b : List Nat) (hb : Bytes b) :
    u64_from_be_u8 b < 2 ^ 64 := by
  have h0 := getD_lt_of_bytes b hb 0
  have h1 := getD_lt_of_bytes b hb 1
  have h2 := getD_lt_of_bytes b hb 2
  have h3 := getD_lt_of_bytes b hb 3
  have h4 := getD_lt_of_bytes b hb 4
  have h5 := getD_lt_of_bytes b hb 5
  have h6 := getD_lt_of_bytes b hb 6
  have h7 := getD_lt_of_bytes b hb 7
  simp only [u64_from_be_u8]
  omega

theorem u64_from_to (a : Nat) (ha : a < 2 ^ 64) :
    u64_from_be_u8 (u64_to_be_u8 a) = a := by
  simp [u64_from_be_u8, u64_to_be_u8]
  omega

theorem exists_eight (b : List Nat) (h : b.length = 8) :
    ∃ a0 a1 a2 a3 a4 a5 a6 a7, b = [a0, a1, a2, a3, a4, a5, a6, a7] := by
  match b with
  | [a0, a1, a2, a3, a4, a5, a6, a7] =>
    exact ⟨a0, a1, a2, a3, a4, a5, a6, a7, rfl⟩
  | [] | [_] | [_, _] | [_, _, _] | [_, _, _, _] | [_, _, _, _, _]
  | [_, _, _, _, _, _] | [_, _, _, _, _, _, _] => simp at h
  | _ :: _ :: _ :: _ :: _ :: _ :: _ :: _ :: _ :: _ =>
    simp only [List.length_cons] at h
    omega

theorem u64_to_from (b : List Nat) (hlen : b.length = 8) (hb : Bytes b) :
    u64_to_be_u8 (u64_from_be_u8 b) = b := by
  obtain ⟨a0, a1, a2, a3, a4, a5, a6, a7, rfl⟩ := exists_eight b hlen
  simp only [Bytes, List.mem_cons, List.not_mem_nil, or_false, forall_eq_or_imp,
    forall_eq] at hb
  obtain ⟨h0, h1, h2, h3, h4, h5, h6, h7⟩ := hb
  simp [u64_from_be_u8, u64_to_be_u8]
  refine ⟨by omega, by omega, by omega, by omega, by omega, by omega, by omega,
    by omega⟩

/-! ### Invariants and inversion of the inner passes -/

/-- The working state of the chaining engine stays a 64-bit accumulator
together with 8-byte blocks. -/
def ValidState (s : Nat × List (List Nat)) : Prop :=
  s.1 < 2 ^ 64 ∧ ∀ r ∈ s.2, r.length = 8 ∧ Bytes r

theorem wrapPass_sndLength (C : Cipher) (rs : List (List Nat)) :
    ∀ a t, (wrapPass C a rs t).2.length = rs.length := by
  induction rs with
  | nil => intro a t; simp [wrapPass]
  | cons ri rest ih => intro a t; simp [wrapPass, ih]

theorem wrapPass_valid (C : Cipher) (hC : GoodCipher C) (rs : List (List Nat)) :
    ∀ a t, a < 2 ^ 64 → (∀ r ∈ rs, r.length = 8 ∧ Bytes r) →
      (wrapPass C a rs t).1 < 2 ^ 64 ∧
      ∀ r ∈ (wrapPass C a rs t).2, r.length = 8 ∧ Bytes r := by
  induction rs with
  | nil => intro a t ha _; simpa [wrapPass] using ha
  | cons ri rest ih =>
    intro a t ha hrs
    obtain ⟨hri, hriB⟩ := hrs ri (by simp)
    have hin_len : (u64_to_be_u8 a ++ ri).length = 16 := by
      simp [u64_to_be_u8_length, hri]
    have hin_bytes : Bytes (u64_to_be_u8 a ++ ri) :=
      bytes_append _ _ (u64_to_be_u8_bytes a) hriB
    have hc_len := hC.enc_length _ hin_len hin_bytes
    have hc_bytes := hC.enc_bytes _ hin_len hin_bytes
    have ha1 : u64_from_be_u8 ((C.enc (u64_to_be_u8 a ++ ri)).take 8) ^^^ t % 2 ^ 64 < 2 ^ 64 :=
      Nat.xor_lt_two_pow (u64_from_be_u8_lt _ (bytes_take _ hc_bytes 8))
        (Nat.mod_lt _ (by norm_num))
    have hrest : ∀ r ∈ rest, r.length = 8 ∧ Bytes r :=
      fun r hr => hrs r (List.mem_cons_of_mem _ hr)
    have := ih _ (t + 1) ha1 hrest
    constructor
    · simpa [wrapPass] using this.1
    · intro r hr
      simp only [wrapPass] at hr
      rcases List.mem_cons.mp hr with h | h
      · subst h
        refine ⟨?_, bytes_drop _ hc_bytes 8⟩
        simp [List.length_drop, hc_len]
      · exact this.2 r h

theorem unwrapPass_wrapPass (C : Cipher) (hC : GoodCipher C)
    (rs : List (List Nat)) :
    ∀ a t, a < 2 ^ 64 → (∀ r ∈ rs, r.length = 8 ∧ Bytes r) →
      unwrapPass C (wrapPass C a rs t).1 (wrapPass C a rs t).2 t = (a, rs) := by
  induction rs with
  | nil => intro a t _ _; simp [wrapPass, unwrapPass]
  | cons ri rest ih =>
    intro a t ha hrs
    obtain ⟨hri, hriB⟩ := hrs ri (by simp)
    have hin_len : (u64_to_be_u8 a ++ ri).length = 16 := by
      simp [u64_to_be_u8_length, hri]
    have hin_bytes : Bytes (u64_to_be_u8 a ++ ri) :=
      bytes_append _ _ (u64_to_be_u8_bytes a) hriB
    have hc_len := hC.enc_length _ hin_len hin_bytes
    have hc_bytes := hC.enc_bytes _ hin_len hin_bytes
    have ha1 : u64_from_be_u8 ((C.enc (u64_to_be_u8 a ++ ri)).take 8) ^^^ t % 2 ^ 64 < 2 ^ 64 :=
      Nat.xor_lt_two_pow (u64_from_be_u8_lt _ (bytes_take _ hc_bytes 8))
        (Nat.mod_lt _ (by norm_num))
    have hrest : ∀ r ∈ rest, r.length = 8 ∧ Bytes r :=
      fun r hr => hrs r (List.mem_cons_of_mem _ hr)
    have hih := ih _ (t + 1) ha1 hrest
    simp only [wrapPass, unwrapPass, hih]
    have hxor : u64_from_be_u8 ((C.enc (u64_to_be_u8 a ++ ri)).take 8) ^^^
        t % 2 ^ 64 ^^^ t % 2 ^ 64 =
        u64_from_be_u8 ((C.enc (u64_to_be_u8 a ++ ri)).take 8) := by
      rw [Nat.xor_assoc, Nat.xor_self, Nat.xor_zero]
    rw [hxor]
    have htake8 : ((C.enc (u64_to_be_u8 a ++ ri)).take 8).length = 8 := by
      simp [List.length_take, hc_len]
    rw [u64_to_from _ htake8 (bytes_take _ hc_bytes 8), List.take_append_drop,
      hC.dec_enc _ hin_len hin_bytes]
    have h8 : (8 : Nat) = (u64_to_be_u8 a).length := (u64_to_be_u8_length a).symm
    rw [h8, List.take_left, List.drop_left, u64_from_to a ha]

/-- Folding the inverse steps over the reversed index list undoes the fold
of the forward steps, provided each step preserves a validity invariant
and is inverted pointwise. -/
theorem foldl_reverse_inverse {σ : Type} (f g : σ → Nat → σ) (V : σ → Prop)
    (hf : ∀ s j, V s → V (f s j) ∧ g (f s j) j = s) :
    ∀ (l : List Nat) (s : σ), V s → (l.reverse).foldl g (l.foldl f s) = s := by
  intro l
  induction l with
  | nil => intro s _; simp
  | cons j l ih =>
    intro s hs
    simp only [List.foldl_cons, List.reverse_cons, List.foldl_append,
      List.foldl_nil]
    rw [ih (f s j) (hf s j hs).1, (hf s j hs).2]

/-! ### Slicing a byte string into 8-byte blocks and back -/

theorem blocksOf_length (n : Nat) (l : List Nat) : (blocksOf n l).length = n := by
  simp [blocksOf]

theorem blocksOf_succ (n : Nat) (l : List Nat) :
    blocksOf (n + 1) l = l.take 8 :: blocksOf n (l.drop 8) := by
  simp only [blocksOf, List.range_succ_eq_map, List.map_cons, List.map_map]
  congr 1
  apply List.map_congr_left
  intro a _
  have h : (a + 1) * 8 = 8 + a * 8 := by ring
  simp only [Function.comp_apply, List.drop_drop, Nat.succ_eq_add_one, h]

theorem blocksOf_mem (n : Nat) (l : List Nat) (hl : 8 * n ≤ l.length)
    (hb : Bytes l) : ∀ r ∈ blocksOf n l, r.length = 8 ∧ Bytes r := by
  induction n generalizing l with
  | zero => simp [blocksOf]
  | succ m ih =>
    intro r hr
    rw [blocksOf_succ] at hr
    rcases List.mem_cons.mp hr with h | h
    · subst h
      refine ⟨?_, bytes_take _ hb 8⟩
      simp only [List.length_take]
      omega
    · exact ih (l.drop 8) (by simp [List.length_drop]; omega)
        (bytes_drop _ hb 8) r h

theorem flatten_blocksOf (n : Nat) (l : List Nat) (hl : l.length = 8 * n) :
    (blocksOf n l).flatten = l := by
  induction n generalizing l with
  | zero =>
    simp only [blocksOf, List.range_zero, List.map_nil, List.flatten_nil]
    have : l = [] := List.eq_nil_of_length_eq_zero (by omega)
    simp [this]
  | succ m ih =>
    rw [blocksOf_succ]
    simp only [List.flatten_cons]
    rw [ih (l.drop 8) (by simp [List.length_drop]; omega), List.take_append_drop]

theorem blocksOf_flatten (rs : List (List Nat))
    (h8 : ∀ r ∈ rs, r.length = 8) :
    blocksOf rs.length rs.flatten = rs := by
  induction rs with
  | nil => simp [blocksOf]
  | cons r rest ih =>
    have hr : r.length = 8 := h8 r (by simp)
    simp only [List.length_cons, List.flatten_cons]
    rw [blocksOf_succ]
    have htake : (r ++ rest.flatten).take 8 = r := by
      rw [← hr, List.take_left]
    have hdrop : (r ++ rest.flatten).drop 8 = rest.flatten := by
      rw [← hr, List.drop_left]
    rw [htake, hdrop, ih (fun x hx => h8 x (List.mem_cons_of_mem _ hx))]

theorem flatten_length_of_blocks (rs : List (List Nat))
    (h8 : ∀ r ∈ rs, r.length = 8) : rs.flatten.length = 8 * rs.length := by
  induction rs with
  | nil => simp
  | cons r rest ih =>
    simp only [List.flatten_cons, List.length_append, List.length_cons]
    rw [h8 r (by simp), ih (fun x hx => h8 x (List.mem_cons_of_mem _ hx))]
    ring

/-! ### Round-level invariants -/

/-- The six-round wrap fold preserves validity of the working state. -/
theorem wrapFold_valid (C : Cipher) (hC : GoodCipher C) (n : Nat)
    (js : List Nat) :
    ∀ s : Nat × List (List Nat), ValidState s →
      ValidState (js.foldl (fun s j => wrapPass C s.1 s.2 (n * j + 1)) s) := by
  induction js with
  | nil => intro s hs; simpa using hs
  | cons j rest ih =>
    intro s hs
    simp only [List.foldl_cons]
    exact ih _ (wrapPass_valid C hC s.2 s.1 (n * j + 1) hs.1 hs.2)

/-- The six-round wrap fold preserves the number of blocks. -/
theorem wrapFold_sndLength (C : Cipher) (n : Nat) (js : List Nat) :
    ∀ s : Nat × List (List Nat),
      (js.foldl (fun s j => wrapPass C s.1 s.2 (n * j + 1)) s).2.length =
        s.2.length := by
  induction js with
  | nil => intro s; rfl
  | cons j rest ih =>
    intro s
    simp only [List.foldl_cons]
    rw [ih, wrapPass_sndLength]

/-! ### The RFC 3394 engine round trip -/

/-- Unwrapping the output of the chaining engine's wrap recovers the
plaintext blocks and the IV, for any block cipher whose `dec` inverts its
`enc` on 16-byte blocks. -/
theorem core_roundtrip (C : Cipher) (hC : GoodCipher C) (pt iv : List Nat)
    (hpt : Bytes pt) (hiv8 : iv.length = 8) (hivB : Bytes iv)
    (hmod : pt.length % 8 = 0) :
    ∀ w, aes_wrap_key_and_iv_core C pt iv = .ok w →
      aes_unwrap_key_and_iv_core C w = .ok (pt, iv) := by
  intro w hw
  have hivnot : ¬ iv.length < 8 := by omega
  simp only [aes_wrap_key_and_iv_core, if_neg hivnot, KwResult.ok.injEq] at hw
  subst hw
  set n := pt.length / 8 with hn
  have hlen8 : pt.length = 8 * n := by omega
  have htk : iv.take 8 = iv := by
    rw [← hiv8]
    exact List.take_length iv
  have ha0 : u64_from_be_u8 (iv.take 8) < 2 ^ 64 :=
    u64_from_be_u8_lt _ (bytes_take _ hivB 8)
  have hR0 : ∀ r ∈ blocksOf n pt, r.length = 8 ∧ Bytes r :=
    blocksOf_mem n pt (by omega) hpt
  have hV0 : ValidState (u64_from_be_u8 (iv.take 8), blocksOf n pt) :=
    ⟨ha0, hR0⟩
  set S := (List.range 6).foldl (fun s j => wrapPass C s.1 s.2 (n * j + 1))
    (u64_from_be_u8 (iv.take 8), blocksOf n pt) with hS
  have hSV : ValidState S := by
    rw [hS]
    exact wrapFold_valid C hC n _ _ hV0
  have hSlen : S.2.length = n := by
    rw [hS, wrapFold_sndLength]
    exact blocksOf_length n pt
  have hSflat : S.2.flatten.length = 8 * n := by
    rw [flatten_length_of_blocks S.2 (fun r hr => (hSV.2 r hr).1), hSlen]
  have hwlen : (u64_to_be_u8 S.1 ++ S.2.flatten).length = 8 + 8 * n := by
    simp [u64_to_be_u8_length, hSflat]
  have hwnot : ¬ (u64_to_be_u8 S.1 ++ S.2.flatten).length < 8 := by omega
  simp only [aes_unwrap_key_and_iv_core, if_neg hwnot]
  have hn' : (u64_to_be_u8 S.1 ++ S.2.flatten).length / 8 - 1 = n := by
    rw [hwlen]; omega
  rw [hn']
  have h8 : (8 : Nat) = (u64_to_be_u8 S.1).length := (u64_to_be_u8_length S.1).symm
  have htake : (u64_to_be_u8 S.1 ++ S.2.flatten).take 8 = u64_to_be_u8 S.1 := by
    rw [h8, List.take_left]
  have hdrop : (u64_to_be_u8 S.1 ++ S.2.flatten).drop 8 = S.2.flatten := by
    rw [h8, List.drop_left]
  rw [htake, hdrop, u64_from_to S.1 hSV.1]
  have hblocks : blocksOf n S.2.flatten = S.2 := by
    rw [← hSlen]
    exact blocksOf_flatten S.2 (fun r hr => (hSV.2 r hr).1)
  rw [hblocks]
  have hinv : ((List.range 6).reverse).foldl
      (fun s j => unwrapPass C s.1 s.2 (n * j + 1)) S =
      (u64_from_be_u8 (iv.take 8), blocksOf n pt) := by
    rw [hS]
    exact foldl_reverse_inverse
      (fun s j => wrapPass C s.1 s.2 (n * j + 1))
      (fun s j => unwrapPass C s.1 s.2 (n * j + 1))
      ValidState
      (fun s j hs => ⟨wrapPass_valid C hC s.2 s.1 (n * j + 1) hs.1 hs.2,
        unwrapPass_wrapPass C hC s.2 s.1 (n * j + 1) hs.1 hs.2⟩)
      (List.range 6) _ hV0
  rw [hinv, flatten_blocksOf n pt hlen8, htk, u64_to_from iv hiv8 hivB]

/-! ### Dispatch reductions -/

theorem dispatch_wrap_eq (fam : List Nat → Cipher) (kek pt iv : List Nat)
    (hk : kek.length = 16 ∨ kek.length = 24 ∨ kek.length = 32) :
    aes_wrap_key_and_iv fam kek pt iv = aes_wrap_key_and_iv_core (fam kek) pt iv := by
  rcases hk with h | h | h <;> simp [aes_wrap_key_and_iv, h]

theorem dispatch_unwrap_eq (fam : List Nat → Cipher) (kek w : List Nat)
    (hk : kek.length = 16 ∨ kek.length = 24 ∨ kek.length = 32) :
    aes_unwrap_key_and_iv fam kek w = aes_unwrap_key_and_iv_core (fam kek) w := by
  rcases hk with h | h | h <;> simp [aes_unwrap_key_and_iv, h]

theorem dispatch_wrap_pad_eq (fam : List Nat → Cipher) (kek pt : List Nat)
    (hk : kek.length = 16 ∨ kek.length = 24 ∨ kek.length = 32) :
    aes_wrap_key_with_pad fam kek pt = aes_wrap_key_with_pad_core fam kek pt := by
  rcases hk with h | h | h <;> simp [aes_wrap_key_with_pad, h]

theorem dispatch_unwrap_pad_eq (fam : List Nat → Cipher) (kek w : List Nat)
    (hk : kek.length = 16 ∨ kek.length = 24 ∨ kek.length = 32) :
    aes_unwrap_key_with_pad fam kek w = aes_unwrap_key_with_pad_core fam kek w := by
  rcases hk with h | h | h <;> simp [aes_unwrap_key_with_pad, h]

/-- Claim C5: for every KEK of length 16, 24, or 32 bytes and every
plaintext whose length is a positive multiple of 8 bytes, unwrapping the
result of wrapping returns the original plaintext —
`aes_unwrap_key(kek, aes_wrap_key(kek, pt)) = pt` — assuming the block
cipher's `decrypt` inverts its `encrypt` (the `GoodCipher` contract). -/
theorem claim_C5_unpadded_roundtrip (fam : List Nat → Cipher) (kek pt : List Nat)
    (hk : kek.length = 16 ∨ kek.length = 24 ∨ kek.length = 32)
    (hC : GoodCipher (fam kek)) (hpt : Bytes pt)
    (hmod : pt.length % 8 = 0) (hpos : 0 < pt.length) :
    roundtripUnpadded fam kek pt = .ok pt := by
  obtain ⟨w, hw⟩ : ∃ w, aes_wrap_key_and_iv_core (fam kek) pt IV_3394 = .ok w :=
    ⟨_, rfl⟩
  have hwrap : aes_wrap_key fam kek pt = .ok w := by
    rw [aes_wrap_key, dispatch_wrap_eq fam kek pt IV_3394 hk, hw]
  have hunw : aes_unwrap_key_and_iv fam kek w = .ok (pt, IV_3394) := by
    rw [dispatch_unwrap_eq fam kek w hk]
    exact core_roundtrip (fam kek) hC pt IV_3394 hpt (by decide) (by decide)
      hmod w hw
  simp [roundtripUnpadded, hwrap, aes_unwrap_key, hunw]

/-- Witness for C5 at a concrete KEK, plaintext and cipher. -/
theorem claim_C5_unpadded_roundtrip_witness :
    (((List.replicate 16 0 : List Nat).length = 16 ∨
        (List.replicate 16 0 : List Nat).length = 24 ∨
        (List.replicate 16 0 : List Nat).length = 32) ∧
      GoodCipher (idFam (List.replicate 16 0)) ∧
      Bytes [1, 2, 3, 4, 5, 6, 7, 8] ∧
      ([1, 2, 3, 4, 5, 6, 7, 8] : List Nat).length % 8 = 0 ∧
      0 < ([1, 2, 3, 4, 5, 6, 7, 8] : List Nat).length) ∧
    roundtripUnpadded idFam (List.replicate 16 0) [1, 2, 3, 4, 5, 6, 7, 8] =
      .ok [1, 2, 3, 4, 5, 6, 7, 8] :=
  ⟨⟨Or.inl (by decide), idCipher_good, by decide, by decide, by decide⟩,
    claim_C5_unpadded_roundtrip idFam (List.replicate 16 0)
      [1, 2, 3, 4, 5, 6, 7, 8] (Or.inl (by decide)) idCipher_good
      (by decide) (by decide) (by decide)⟩

/-! ### Failure-mode lemmas shared between claims -/

/-- All four entry points hit the `_ => panic!(..)` dispatch arm on a KEK
whose length is not 16, 24 or 32; the result does not depend on the cipher
family (`fam` is arbitrary), so no block-cipher work is involved. -/
theorem unsupported_kek_panics (fam : List Nat → Cipher) (kek pt w : List Nat)
    (hk : ¬(kek.length = 16 ∨ kek.length = 24 ∨ kek.length = 32)) :
    aes_wrap_key fam kek pt = .panic .unsupportedKek ∧
    aes_unwrap_key fam kek w = .panic .unsupportedKek ∧
    aes_wrap_key_with_pad fam kek pt = .panic .unsupportedKek ∧
    aes_unwrap_key_with_pad fam kek w = .panic .unsupportedKek := by
  push_neg at hk
  obtain ⟨h16, h24, h32⟩ := hk
  refine ⟨?_, ?_, ?_, ?_⟩ <;>
    simp [aes_wrap_key, aes_wrap_key_and_iv, aes_unwrap_key,
      aes_unwrap_key_and_iv, aes_wrap_key_with_pad, aes_unwrap_key_with_pad,
      h16, h24, h32]

/-- A wrapped input shorter than 8 bytes aborts every unwrap path on a
supported KEK: `wrapped.len() / 8 - 1` underflows. -/
theorem short_input_aborts (fam : List Nat → Cipher) (kek w : List Nat)
    (hk : kek.length = 16 ∨ kek.length = 24 ∨ kek.length = 32)
    (hw : w.length < 8) :
    aes_unwrap_key_and_iv fam kek w = .panic .usizeUnderflow ∧
    aes_unwrap_key fam kek w = .panic .usizeUnderflow ∧
    aes_unwrap_key_with_pad fam kek w = .panic .usizeUnderflow := by
  have h1 : aes_unwrap_key_and_iv fam kek w = .panic .usizeUnderflow := by
    rw [dispatch_unwrap_eq fam kek w hk]
    simp [aes_unwrap_key_and_iv_core, hw]
  have h16 : ¬ w.length = 16 := by omega
  refine ⟨h1, ?_, ?_⟩
  · simp [aes_unwrap_key, h1]
  · rw [dispatch_unwrap_pad_eq fam kek w hk]
    simp [aes_unwrap_key_with_pad_core, padRecover, h16, h1]

/-- Claim C9: on a supported KEK, a wrapped input shorter than 8 bytes
makes the computation of `n = wrapped.len() / 8 - 1` underflow and the
call abort (`usizeUnderflow` models that abort: the subtraction overflow
panic in a debug build, the ensuing out-of-range slice panic in a release
build); this hits `aes_unwrap_key_and_iv`, hence `aes_unwrap_key`, and
`aes_unwrap_key_with_pad` whenever the input is not exactly 16 bytes —
which a sub-8-byte input never is. -/
theorem claim_C9_short_input_underflow (fam : List Nat → Cipher)
    (kek w : List Nat)
    (hk : kek.length = 16 ∨ kek.length = 24 ∨ kek.length = 32)
    (hw : w.length < 8) :
    aes_unwrap_key_and_iv fam kek w = .panic .usizeUnderflow ∧
    aes_unwrap_key fam kek w = .panic .usizeUnderflow ∧
    aes_unwrap_key_with_pad fam kek w = .panic .usizeUnderflow :=
  short_input_aborts fam kek w hk hw

/-- Witness for C9 at a concrete KEK and 3-byte input. -/
theorem claim_C9_short_input_underflow_witness :
    (((List.replicate 24 7 : List Nat).length = 16 ∨
        (List.replicate 24 7 : List Nat).length = 24 ∨
        (List.replicate 24 7 : List Nat).length = 32) ∧
      ([1, 2, 3] : List Nat).length < 8) ∧
    (aes_unwrap_key_and_iv idFam (List.replicate 24 7) [1, 2, 3] =
        .panic .usizeUnderflow ∧
      aes_unwrap_key idFam (List.replicate 24 7) [1, 2, 3] =
        .panic .usizeUnderflow ∧
      aes_unwrap_key_with_pad idFam (List.replicate 24 7) [1, 2, 3] =
        .panic .usizeUnderflow) :=
  ⟨⟨Or.inr (Or.inl (by decide)), by decide⟩,
    claim_C9_short_input_underflow idFam (List.replicate 24 7) [1, 2, 3]
      (Or.inr (Or.inl (by decide))) (by decide)⟩

/-- Claim C8: a KEK whose length is not 16, 24 or 32 bytes is rejected by
every entry point immediately with the kek-not-supported failure, before
any block-cipher work: the statement holds for an arbitrary cipher family
`fam`, so the rejection cannot depend on any cipher computation.  (As C3
records, the rejection is delivered as a panic — the library has no typed
error channel.) -/
theorem claim_C8_unsupported_kek_rejected (fam : List Nat → Cipher)
    (kek pt w iv : List Nat)
    (hk : ¬(kek.length = 16 ∨ kek.length = 24 ∨ kek.length = 32)) :
    aes_wrap_key fam kek pt = .panic .unsupportedKek ∧
    aes_unwrap_key fam kek w = .panic .unsupportedKek ∧
    aes_wrap_key_with_pad fam kek pt = .panic .unsupportedKek ∧
    aes_unwrap_key_with_pad fam kek w = .panic .unsupportedKek ∧
    aes_wrap_key_and_iv fam kek pt iv = .panic .unsupportedKek ∧
    aes_unwrap_key_and_iv fam kek w = .panic .unsupportedKek := by
  obtain ⟨h1, h2, h3, h4⟩ := unsupported_kek_panics fam kek pt w hk
  push_neg at hk
  obtain ⟨h16, h24, h32⟩ := hk
  refine ⟨h1, h2, h3, h4, ?_, ?_⟩ <;>
    simp [aes_wrap_key_and_iv, aes_unwrap_key_and_iv, h16, h24, h32]

/-- Witness for C8 at a 15-byte KEK (the spec's own test case). -/
theorem claim_C8_unsupported_kek_rejected_witness :
    (¬((List.replicate 15 0 : List Nat).length = 16 ∨
        (List.replicate 15 0 : List Nat).length = 24 ∨
        (List.replicate 15 0 : List Nat).length = 32)) ∧
    (aes_wrap_key idFam (List.replicate 15 0) [1] = .panic .unsupportedKek ∧
      aes_unwrap_key idFam (List.replicate 15 0) [2] = .panic .unsupportedKek ∧
      aes_wrap_key_with_pad idFam (List.replicate 15 0) [1] =
        .panic .unsupportedKek ∧
      aes_unwrap_key_with_pad idFam (List.replicate 15 0) [2] =
        .panic .unsupportedKek ∧
      aes_wrap_key_and_iv idFam (List.replicate 15 0) [1] [3] =
        .panic .unsupportedKek ∧
      aes_unwrap_key_and_iv idFam (List.replicate 15 0) [2] =
        .panic .unsupportedKek) :=
  ⟨by decide,
    claim_C8_unsupported_kek_rejected idFam (List.replicate 15 0) [1] [2] [3]
      (by decide)⟩

/-- Counterexample to C3 as stated ("no input ever makes wrap, unwrap,
wrap_with_pad, or unwrap_with_pad panic"): a 15-byte KEK makes
`aes_wrap_key` abort with a panic; no typed error value is returned. -/
theorem claim_C3_counterexample :
    aes_wrap_key idFam (List.replicate 15 9) [0, 1, 2, 3, 4, 5, 6, 7] =
      .panic .unsupportedKek := by
  decide

/-- Claim C3 (amended): every failure condition of the entry points is
reported by panicking — aborting the call — rather than by a typed,
recoverable error result: an unsupported KEK size panics all four entry
points, a too-short wrapped input panics the unwrap paths, and an RFC 3394
integrity failure panics `aes_unwrap_key`. -/
theorem claim_C3_failures_are_panics (fam : List Nat → Cipher)
    (kekBad kekOk pt w wShort key kiv : List Nat)
    (hbad : ¬(kekBad.length = 16 ∨ kekBad.length = 24 ∨ kekBad.length = 32))
    (hok : kekOk.length = 16 ∨ kekOk.length = 24 ∨ kekOk.length = 32)
    (hshort : wShort.length < 8)
    (hrec : aes_unwrap_key_and_iv fam kekOk w = .ok (key, kiv))
    (hne : kiv ≠ IV_3394) :
    aes_wrap_key fam kekBad pt = .panic .unsupportedKek ∧
    aes_unwrap_key fam kekBad w = .panic .unsupportedKek ∧
    aes_wrap_key_with_pad fam kekBad pt = .panic .unsupportedKek ∧
    aes_unwrap_key_with_pad fam kekBad w = .panic .unsupportedKek ∧
    aes_unwrap_key fam kekOk wShort = .panic .usizeUnderflow ∧
    aes_unwrap_key fam kekOk w = .panic .integrityCheckFailed := by
  obtain ⟨h1, h2, h3, h4⟩ := unsupported_kek_panics fam kekBad pt w hbad
  refine ⟨h1, h2, h3, h4,
    (short_input_aborts fam kekOk wShort hok hshort).2.1, ?_⟩
  simp [aes_unwrap_key, hrec, hne]

/-- Witness for the amended C3 at concrete inputs: 20-byte KEK for the
unsupported side; 16-byte zero KEK with the all-zero 16-byte wrapped input
for the integrity side (its recovered IV is `00..07`, not `IV_3394`). -/
theorem claim_C3_failures_are_panics_witness :
    ((¬((List.replicate 20 1 : List Nat).length = 16 ∨
          (List.replicate 20 1 : List Nat).length = 24 ∨
          (List.replicate 20 1 : List Nat).length = 32)) ∧
      ((List.replicate 16 0 : List Nat).length = 16 ∨
        (List.replicate 16 0 : List Nat).length = 24 ∨
        (List.replicate 16 0 : List Nat).length = 32) ∧
      ([5] : List Nat).length < 8 ∧
      aes_unwrap_key_and_iv idFam (List.replicate 16 0) (List.replicate 16 0) =
        .ok (List.replicate 8 0, [0, 0, 0, 0, 0, 0, 0, 7]) ∧
      ([0, 0, 0, 0, 0, 0, 0, 7] : List Nat) ≠ IV_3394) ∧
    (aes_wrap_key idFam (List.replicate 20 1) [1] = .panic .unsupportedKek ∧
      aes_unwrap_key idFam (List.replicate 20 1) (List.replicate 16 0) =
        .panic .unsupportedKek ∧
      aes_wrap_key_with_pad idFam (List.replicate 20 1) [1] =
        .panic .unsupportedKek ∧
      aes_unwrap_key_with_pad idFam (List.replicate 20 1)
          (List.replicate 16 0) = .panic .unsupportedKek ∧
      aes_unwrap_key idFam (List.replicate 16 0) [5] =
        .panic .usizeUnderflow ∧
      aes_unwrap_key idFam (List.replicate 16 0) (List.replicate 16 0) =
        .panic .integrityCheckFailed) :=
  ⟨⟨by decide, Or.inl (by decide), by decide, by decide, by decide⟩,
    claim_C3_failures_are_panics idFam (List.replicate 20 1)
      (List.replicate 16 0) [1] (List.replicate 16 0) [5]
      (List.replicate 8 0) [0, 0, 0, 0, 0, 0, 0, 7]
      (by decide) (Or.inl (by decide)) (by decide) (by decide) (by decide)⟩

/-- Counterexample to C4 as stated: `aes_unwrap_key_with_pad` does NOT
return the key "exactly when" the first 4 bytes of the recovered IV equal
`A6 59 59 A6` — here the prefix matches, yet the call aborts because the
declared length (9) exceeds the 8-byte candidate, so no key is returned. -/
theorem claim_C4_counterexample :
    (padRecover idFam (List.replicate 16 2)
        [0xa6, 0x59, 0x59, 0xa6, 0, 0, 0, 9, 0, 0, 0, 0, 0, 0, 0, 0] =
      .ok ([0, 0, 0, 0, 0, 0, 0, 0], [0xa6, 0x59, 0x59, 0xa6, 0, 0, 0, 9]) ∧
      ([0xa6, 0x59, 0x59, 0xa6, 0, 0, 0, 9] : List Nat).take 4 = IV_5649) ∧
    aes_unwrap_key_with_pad idFam (List.replicate 16 2)
        [0xa6, 0x59, 0x59, 0xa6, 0, 0, 0, 9, 0, 0, 0, 0, 0, 0, 0, 0] =
      .panic .sliceOutOfRange := by
  decide

/-- Claim C4 (amended): on a supported KEK, `aes_unwrap_key` returns the
key exactly when the recovered 8-byte accumulator equals
`A6A6A6A6A6A6A6A6`, and otherwise panics with the integrity failure;
`aes_unwrap_key_with_pad` returns a key exactly when the first 4 bytes of
the recovered IV equal `A65959A6` AND the declared length fits in the
recovered candidate — the prefix alone is not enough, since an oversized
declared length panics — and a prefix mismatch panics with the integrity
failure.  No plaintext escapes in any failing case. -/
theorem claim_C4_integrity_gate (fam : List Nat → Cipher) (kek w : List Nat)
    (hk : kek.length = 16 ∨ kek.length = 24 ∨ kek.length = 32) :
    (∀ key iv', aes_unwrap_key_and_iv fam kek w = .ok (key, iv') →
      aes_unwrap_key fam kek w =
        if iv' = IV_3394 then .ok key else .panic .integrityCheckFailed) ∧
    (∀ key kiv, padRecover fam kek w = .ok (key, kiv) → kiv.length = 8 →
      ((∃ k, aes_unwrap_key_with_pad fam kek w = .ok k) ↔
        (kiv.take 4 = IV_5649 ∧
          u32_from_be_u8 ((kiv.drop 4).take 4) ≤ key.length)) ∧
      (kiv.take 4 ≠ IV_5649 →
        aes_unwrap_key_with_pad fam kek w = .panic .integrityCheckFailed)) := by
  constructor
  · intro key iv' h
    simp [aes_unwrap_key, h]
  · intro key kiv hrec hlen8
    have hnot : ¬ kiv.length < 8 := by omega
    have hpad : aes_unwrap_key_with_pad fam kek w =
        (if IV_5649 = kiv.take 4 then
          (if key.length < u32_from_be_u8 ((kiv.drop 4).take 4) then
            .panic .sliceOutOfRange
          else .ok (key.take (u32_from_be_u8 ((kiv.drop 4).take 4))))
        else .panic .integrityCheckFailed) := by
      rw [dispatch_unwrap_pad_eq fam kek w hk]
      simp only [aes_unwrap_key_with_pad_core, hrec, if_neg hnot]
    constructor
    · constructor
      · rintro ⟨k, hkres⟩
        rw [hpad] at hkres
        by_cases h1 : IV_5649 = kiv.take 4
        · rw [if_pos h1] at hkres
          by_cases h2 : key.length < u32_from_be_u8 ((kiv.drop 4).take 4)
          · rw [if_pos h2] at hkres
            exact absurd hkres (by simp)
          · exact ⟨h1.symm, by omega⟩
        · rw [if_neg h1] at hkres
          exact absurd hkres (by simp)
      · rintro ⟨h1, h2⟩
        rw [hpad, if_pos h1.symm, if_neg (by omega)]
        exact ⟨_, rfl⟩
    · intro h1
      rw [hpad, if_neg (fun h => h1 h.symm)]

/-- Witness for the amended C4 at the all-zero 16-byte KEK and wrapped
input (its recovered padded IV register is all zeroes, so the padded
prefix check fails; the clause conclusions are all instantiated). -/
theorem claim_C4_integrity_gate_witness :
    (((List.replicate 16 0 : List Nat).length = 16 ∨
        (List.replicate 16 0 : List Nat).length = 24 ∨
        (List.replicate 16 0 : List Nat).length = 32)) ∧
    ((∀ key iv',
        aes_unwrap_key_and_iv idFam (List.replicate 16 0)
            (List.replicate 16 3) = .ok (key, iv') →
        aes_unwrap_key idFam (List.replicate 16 0) (List.replicate 16 3) =
          if iv' = IV_3394 then .ok key else .panic .integrityCheckFailed) ∧
      (∀ key kiv,
        padRecover idFam (List.replicate 16 0) (List.replicate 16 3) =
            .ok (key, kiv) → kiv.length = 8 →
        ((∃ k, aes_unwrap_key_with_pad idFam (List.replicate 16 0)
              (List.replicate 16 3) = .ok k) ↔
          (kiv.take 4 = IV_5649 ∧
            u32_from_be_u8 ((kiv.drop 4).take 4) ≤ key.length)) ∧
        (kiv.take 4 ≠ IV_5649 →
          aes_unwrap_key_with_pad idFam (List.replicate 16 0)
              (List.replicate 16 3) = .panic .integrityCheckFailed))) :=
  ⟨Or.inl (by decide),
    claim_C4_integrity_gate idFam (List.replicate 16 0) (List.replicate 16 3)
      (Or.inl (by decide))⟩

/-- Counterexample to C7 as stated: a declared length of 0 violates the
claimed lower bound `declared_length > padded_length - 8` (here `0 > 0` is
false), yet `aes_unwrap_key_with_pad` does not reject it — it returns the
empty key.  The code performs no lower-bound validation at all. -/
theorem claim_C7_counterexample :
    aes_unwrap_key_with_pad idFam (List.replicate 32 3)
        [0xa6, 0x59, 0x59, 0xa6, 0, 0, 0, 0, 9, 9, 9, 9, 9, 9, 9, 9] =
      .ok [] ∧
    ¬((0 : Nat) > 8 - 8) := by
  decide

/-- Claim C7 (amended): on a supported KEK, once the padded integrity
check passes, the only length validation is the slice bound: a declared
length exceeding the recovered candidate makes the call abort with an
out-of-range-slice panic (not a typed error), and ANY declared length that
fits — including those failing `declared_length > padded_length - 8` — is
accepted, returning the candidate truncated to the declared length. -/
theorem claim_C7_declared_length_handling (fam : List Nat → Cipher)
    (kek w key kiv : List Nat)
    (hk : kek.length = 16 ∨ kek.length = 24 ∨ kek.length = 32)
    (hrec : padRecover fam kek w = .ok (key, kiv)) (hlen8 : kiv.length = 8)
    (hpre : kiv.take 4 = IV_5649) :
    (key.length < u32_from_be_u8 ((kiv.drop 4).take 4) →
      aes_unwrap_key_with_pad fam kek w = .panic .sliceOutOfRange) ∧
    (u32_from_be_u8 ((kiv.drop 4).take 4) ≤ key.length →
      aes_unwrap_key_with_pad fam kek w =
        .ok (key.take (u32_from_be_u8 ((kiv.drop 4).take 4)))) := by
  have hnot : ¬ kiv.length < 8 := by omega
  have hpad : aes_unwrap_key_with_pad fam kek w =
      (if key.length < u32_from_be_u8 ((kiv.drop 4).take 4) then
        .panic .sliceOutOfRange
      else .ok (key.take (u32_from_be_u8 ((kiv.drop 4).take 4)))) := by
    rw [dispatch_unwrap_pad_eq fam kek w hk]
    simp only [aes_unwrap_key_with_pad_core, hrec, if_neg hnot,
      if_pos hpre.symm]
  constructor
  · intro h
    rw [hpad, if_pos h]
  · intro h
    rw [hpad, if_neg (by omega)]

/-- Witness for the amended C7: declared length 3 against an 8-byte
candidate is accepted and truncated (and the oversize clause holds
vacuously). -/
theorem claim_C7_declared_length_handling_witness :
    (((List.replicate 16 1 : List Nat).length = 16 ∨
        (List.replicate 16 1 : List Nat).length = 24 ∨
        (List.replicate 16 1 : List Nat).length = 32) ∧
      padRecover idFam (List.replicate 16 1)
          [0xa6, 0x59, 0x59, 0xa6, 0, 0, 0, 3, 7, 7, 7, 7, 7, 7, 7, 7] =
        .ok ([7, 7, 7, 7, 7, 7, 7, 7], [0xa6, 0x59, 0x59, 0xa6, 0, 0, 0, 3]) ∧
      ([0xa6, 0x59, 0x59, 0xa6, 0, 0, 0, 3] : List Nat).length = 8 ∧
      ([0xa6, 0x59, 0x59, 0xa6, 0, 0, 0, 3] : List Nat).take 4 = IV_5649) ∧
    ((([7, 7, 7, 7, 7, 7, 7, 7] : List Nat).length <
        u32_from_be_u8 ((([0xa6, 0x59, 0x59, 0xa6, 0, 0, 0, 3] :
          List Nat).drop 4).take 4) →
      aes_unwrap_key_with_pad idFam (List.replicate 16 1)
          [0xa6, 0x59, 0x59, 0xa6, 0, 0, 0, 3, 7, 7, 7, 7, 7, 7, 7, 7] =
        .panic .sliceOutOfRange) ∧
    (u32_from_be_u8 ((([0xa6, 0x59, 0x59, 0xa6, 0, 0, 0, 3] :
          List Nat).drop 4).take 4) ≤
        ([7, 7, 7, 7, 7, 7, 7, 7] : List Nat).length →
      aes_unwrap_key_with_pad idFam (List.replicate 16 1)
          [0xa6, 0x59, 0x59, 0xa6, 0, 0, 0, 3, 7, 7, 7, 7, 7, 7, 7, 7] =
        .ok (([7, 7, 7, 7, 7, 7, 7, 7] : List Nat).take
          (u32_from_be_u8 ((([0xa6, 0x59, 0x59, 0xa6, 0, 0, 0, 3] :
            List Nat).drop 4).take 4))))) :=
  ⟨⟨Or.inl (by decide), by decide, by decide, by decide⟩,
    claim_C7_declared_length_handling idFam (List.replicate 16 1)
      [0xa6, 0x59, 0x59, 0xa6, 0, 0, 0, 3, 7, 7, 7, 7, 7, 7, 7, 7]
      [7, 7, 7, 7, 7, 7, 7, 7] [0xa6, 0x59, 0x59, 0xa6, 0, 0, 0, 3]
      (Or.inl (by decide)) (by decide) (by decide) (by decide)⟩

/-! ### Wrapping ignores trailing partial blocks -/

theorem blocksOf_take (n : Nat) (l : List Nat) :
    blocksOf n (l.take (8 * n)) = blocksOf n l := by
  unfold blocksOf
  apply List.map_congr_left
  intro i hi
  rw [List.mem_range] at hi
  rw [List.drop_take, List.take_take]
  congr 1
  omega

/-- On a well-formed IV and byte plaintext, the chaining-engine wrap
always returns, with output `8 * (n + 1)` bytes for `n` input blocks. -/
theorem core_wrap_length (C : Cipher) (hC : GoodCipher C) (pt iv : List Nat)
    (hptB : Bytes pt) (hiv8 : iv.length = 8) (hivB : Bytes iv) :
    ∃ w, aes_wrap_key_and_iv_core C pt iv = .ok w ∧
      w.length = 8 * (pt.length / 8 + 1) := by
  have hivnot : ¬ iv.length < 8 := by omega
  refine ⟨_, by rw [aes_wrap_key_and_iv_core, if_neg hivnot], ?_⟩
  set n := pt.length / 8 with hn
  have ha0 : u64_from_be_u8 (iv.take 8) < 2 ^ 64 :=
    u64_from_be_u8_lt _ (bytes_take _ hivB 8)
  have hV0 : ValidState (u64_from_be_u8 (iv.take 8), blocksOf n pt) :=
    ⟨ha0, blocksOf_mem n pt (by omega) hptB⟩
  set S := (List.range 6).foldl (fun s j => wrapPass C s.1 s.2 (n * j + 1))
    (u64_from_be_u8 (iv.take 8), blocksOf n pt) with hS
  have hSV : ValidState S := by
    rw [hS]
    exact wrapFold_valid C hC n _ _ hV0
  have hSlen : S.2.length = n := by
    rw [hS, wrapFold_sndLength]
    exact blocksOf_length n pt
  have hSflat : S.2.flatten.length = 8 * n := by
    rw [flatten_length_of_blocks S.2 (fun r hr => (hSV.2 r hr).1), hSlen]
  simp [u64_to_be_u8_length, hSflat]
  ring

/-- Claim C10: on a supported KEK and an 8-byte IV, `aes_wrap_key_and_iv`
(and `aes_wrap_key`) raises no error on a plaintext whose length is not a
multiple of 8: it silently ignores the trailing `len mod 8` bytes,
producing exactly the output for the plaintext truncated to
`floor(len/8)` blocks, of length `8 * (floor(len/8) + 1)` bytes. -/
theorem claim_C10_trailing_bytes_ignored (fam : List Nat → Cipher)
    (kek pt iv : List Nat)
    (hk : kek.length = 16 ∨ kek.length = 24 ∨ kek.length = 32)
    (hC : GoodCipher (fam kek)) (hiv8 : iv.length = 8) (hivB : Bytes iv)
    (hptB : Bytes pt) (hmod : pt.length % 8 ≠ 0) :
    aes_wrap_key_and_iv fam kek pt iv =
      aes_wrap_key_and_iv fam kek (pt.take (8 * (pt.length / 8))) iv ∧
    aes_wrap_key fam kek pt =
      aes_wrap_key fam kek (pt.take (8 * (pt.length / 8))) ∧
    ∃ w, aes_wrap_key_and_iv fam kek pt iv = .ok w ∧
      w.length = 8 * (pt.length / 8 + 1) := by
  have htlen : (pt.take (8 * (pt.length / 8))).length = 8 * (pt.length / 8) := by
    rw [List.length_take]
    omega
  have hcore : ∀ iv', aes_wrap_key_and_iv_core (fam kek) pt iv' =
      aes_wrap_key_and_iv_core (fam kek) (pt.take (8 * (pt.length / 8))) iv' := by
    intro iv'
    simp only [aes_wrap_key_and_iv_core, htlen,
      Nat.mul_div_cancel_left _ (by norm_num : (0 : Nat) < 8), blocksOf_take]
  refine ⟨?_, ?_, ?_⟩
  · rw [dispatch_wrap_eq fam kek pt iv hk, dispatch_wrap_eq fam kek _ iv hk,
      hcore iv]
  · rw [aes_wrap_key, aes_wrap_key, dispatch_wrap_eq fam kek pt IV_3394 hk,
      dispatch_wrap_eq fam kek _ IV_3394 hk, hcore IV_3394]
  · rw [dispatch_wrap_eq fam kek pt iv hk]
    exact core_wrap_length (fam kek) hC pt iv hptB hiv8 hivB

/-- Witness for C10: a 10-byte plaintext under a 32-byte KEK. -/
theorem claim_C10_trailing_bytes_ignored_witness :
    (((List.replicate 32 4 : List Nat).length = 16 ∨
        (List.replicate 32 4 : List Nat).length = 24 ∨
        (List.replicate 32 4 : List Nat).length = 32) ∧
      GoodCipher (idFam (List.replicate 32 4)) ∧
      (IV_3394.length = 8) ∧ Bytes IV_3394 ∧
      Bytes [1, 2, 3, 4, 5, 6, 7, 8, 9, 10] ∧
      ([1, 2, 3, 4, 5, 6, 7, 8, 9, 10] : List Nat).length % 8 ≠ 0) ∧
    (aes_wrap_key_and_iv idFam (List.replicate 32 4)
        [1, 2, 3, 4, 5, 6, 7, 8, 9, 10] IV_3394 =
      aes_wrap_key_and_iv idFam (List.replicate 32 4)
        (([1, 2, 3, 4, 5, 6, 7, 8, 9, 10] : List Nat).take
          (8 * (([1, 2, 3, 4, 5, 6, 7, 8, 9, 10] : List Nat).length / 8)))
        IV_3394 ∧
      aes_wrap_key idFam (List.replicate 32 4) [1, 2, 3, 4, 5, 6, 7, 8, 9, 10] =
        aes_wrap_key idFam (List.replicate 32 4)
          (([1, 2, 3, 4, 5, 6, 7, 8, 9, 10] : List Nat).take
            (8 * (([1, 2, 3, 4, 5, 6, 7, 8, 9, 10] : List Nat).length / 8))) ∧
      ∃ w, aes_wrap_key_and_iv idFam (List.replicate 32 4)
          [1, 2, 3, 4, 5, 6, 7, 8, 9, 10] IV_3394 = .ok w ∧
        w.length = 8 * (([1, 2, 3, 4, 5, 6, 7, 8, 9, 10] :
          List Nat).length / 8 + 1)) :=
  ⟨⟨Or.inr (Or.inr (by decide)), idCipher_good, by decide, by decide,
      by decide, by decide⟩,
    claim_C10_trailing_bytes_ignored idFam (List.replicate 32 4)
      [1, 2, 3, 4, 5, 6, 7, 8, 9, 10] IV_3394
      (Or.inr (Or.inr (by decide))) idCipher_good (by decide) (by decide)
      (by decide) (by decide)⟩

/-! ### Code-bug evaluations for the padded wrap (claims C1 and C2) -/

/-- Claim C1 evaluation at the failing input: under a legitimate cipher
(the `GoodCipher` identity instance), padded-wrapping a 9-byte plaintext
and unwrapping does NOT return the plaintext — the call aborts.  The
flawed pad count (`padCount 9 = 1`) yields a 10-byte padded buffer, the
chain engine silently drops its last two bytes (including the 9th
plaintext byte), the output is a single 16-byte block, and the unwrap's
single-block path then reads a declared length of 9 XOR'd into 14 against
an 8-byte candidate and aborts on the out-of-range slice. -/
theorem claim_C1_roundtrip_pad_fails_eval :
    GoodCipher (idFam (List.replicate 16 0)) ∧
    roundtripPad idFam (List.replicate 16 0) [0, 1, 2, 3, 4, 5, 6, 7, 8] =
      .panic .sliceOutOfRange ∧
    roundtripPad idFam (List.replicate 16 0) [0, 1, 2, 3, 4, 5, 6, 7, 8] ≠
      .ok [0, 1, 2, 3, 4, 5, 6, 7, 8] :=
  ⟨idCipher_good, by decide, by decide⟩

/-- Claim C2 evaluation at the failing input: for a 9-byte plaintext the
code appends `padCount 9 = 1` zero byte — the padded length 10 is NOT the
next multiple of 8 — and the wrapped output has 16 bytes, not the claimed
`round_up_to_8(9) + 8 = 24`. -/
theorem claim_C2_pad_length_law_fails_eval :
    padCount 9 = 1 ∧
    (9 + padCount 9) % 8 ≠ 0 ∧
    aes_wrap_key_with_pad idFam (List.replicate 24 1) (List.replicate 9 5) =
      .ok [0xa6, 0x59, 0x59, 0xa6, 0, 0, 0, 14, 5, 5, 5, 5, 5, 5, 5, 5] ∧
    ([0xa6, 0x59, 0x59, 0xa6, 0, 0, 0, 14, 5, 5, 5, 5, 5, 5, 5, 5] :
      List Nat).length = 16 ∧ (16 : Nat) ≠ 24 := by
  decide

/-! ### The engine computes exactly the spec's indexed algorithm (C6) -/

theorem getD_append_length (P : List (List Nat)) (r : List Nat)
    (rest : List (List Nat)) :
    (P ++ r :: rest).getD P.length ([] : List Nat) = r := by
  induction P with
  | nil => rfl
  | cons p ps ih =>
    simpa only [List.cons_append, List.length_cons, List.getD_cons_succ]
      using ih

theorem set_append_length (P : List (List Nat)) (r c : List Nat)
    (rest : List (List Nat)) :
    (P ++ r :: rest).set P.length c = P ++ c :: rest := by
  induction P with
  | nil => rfl
  | cons p ps ih =>
    simp only [List.cons_append, List.length_cons, List.set_cons_succ, ih]

/-- The spec's indexed inner loop, run over the 1-based slots
`|P|+1 .. |P|+|rs|` of the register array `P ++ rs`, acts exactly as the
structural `wrapPass` on the suffix `rs`, leaving the processed slots `P`
in place. -/
theorem specStep_fold_eq (C : Cipher) (n j : Nat) :
    ∀ (rs P : List (List Nat)) (a : Nat),
      (List.range rs.length).foldl
        (fun s k => specWrapStep C n s j (k + (P.length + 1))) (a, P ++ rs) =
      ((wrapPass C a rs (n * j + (P.length + 1))).1,
        P ++ (wrapPass C a rs (n * j + (P.length + 1))).2) := by
  intro rs
  induction rs with
  | nil => intro P a; simp [wrapPass]
  | cons r rest ih =>
    intro P a
    rw [List.length_cons, List.range_succ_eq_map, List.foldl_cons,
      List.foldl_map]
    have hstep : specWrapStep C n (a, P ++ r :: rest) j (0 + (P.length + 1)) =
        (u64_from_be_u8 ((C.enc (u64_to_be_u8 a ++ r)).take 8) ^^^
          (n * j + (P.length + 1)) % 2 ^ 64,
         P ++ (C.enc (u64_to_be_u8 a ++ r)).drop 8 :: rest) := by
      simp only [specWrapStep, Nat.zero_add, Nat.add_sub_cancel,
        getD_append_length, set_append_length]
    rw [hstep]
    have harith : ∀ k : Nat, Nat.succ k + (P.length + 1) =
        k + ((P ++ [(C.enc (u64_to_be_u8 a ++ r)).drop 8]).length + 1) := by
      intro k
      simp [List.length_append]
      omega
    simp only [harith]
    have happ : P ++ (C.enc (u64_to_be_u8 a ++ r)).drop 8 :: rest =
        (P ++ [(C.enc (u64_to_be_u8 a ++ r)).drop 8]) ++ rest := by
      rw [List.append_assoc]
      rfl
    rw [happ, ih]
    simp only [wrapPass, List.length_append, List.length_cons,
      List.length_nil]
    have hctr : n * j + (P.length + (0 + 1) + 1) = n * j + (P.length + 1) + 1 := by
      omega
    rw [hctr, List.append_assoc, List.singleton_append]

/-- One spec round equals one structural pass. -/
theorem specWrapRound_eq (C : Cipher) (n j : Nat) (s : Nat × List (List Nat))
    (hlen : s.2.length = n) :
    specWrapRound C n s j = wrapPass C s.1 s.2 (n * j + 1) := by
  obtain ⟨a, rs⟩ := s
  simp only at hlen
  subst hlen
  unfold specWrapRound
  rw [List.foldl_map]
  have h := specStep_fold_eq C rs.length j rs [] a
  simp only [List.length_nil, List.nil_append, Nat.zero_add] at h
  rw [h, Prod.mk.eta]

/-- The spec's six-round transform equals the engine's fold of passes. -/
theorem specWrap_fold_eq (C : Cipher) (n : Nat) (js : List Nat) :
    ∀ s : Nat × List (List Nat), s.2.length = n →
      js.foldl (fun s j => specWrapRound C n s j) s =
      js.foldl (fun s j => wrapPass C s.1 s.2 (n * j + 1)) s := by
  induction js with
  | nil => intro s _; rfl
  | cons j rest ih =>
    intro s hs
    simp only [List.foldl_cons]
    rw [specWrapRound_eq C n j s hs]
    exact ih _ (by rw [wrapPass_sndLength]; exact hs)

theorem specWrap_eq (C : Cipher) (n : Nat) (A0 : Nat) (R0 : List (List Nat))
    (h : R0.length = n) :
    specWrap C n A0 R0 =
      (List.range 6).foldl (fun s j => wrapPass C s.1 s.2 (n * j + 1))
        (A0, R0) := by
  unfold specWrap
  exact specWrap_fold_eq C n (List.range 6) (A0, R0) h

/-- Claim C6: on a supported KEK, an 8-byte IV, and a plaintext of exactly
`n ≥ 1` 8-byte blocks, `aes_wrap_key_and_iv` computes exactly the RFC 3394
wrap as the spec words it — six rounds `j = 0..5`, inner index `i = 1..n`
ascending, each step encrypting `A || R[i]`, new `A` = high 8 bytes XOR
the 64-bit counter `t = n*j + i`, new `R[i]` = low 8 bytes — and outputs
`A || R[1] || ... || R[n]`, `8*(n+1)` bytes. -/
theorem claim_C6_wrap_matches_rfc3394 (fam : List Nat → Cipher)
    (kek pt iv : List Nat) (n : Nat)
    (hk : kek.length = 16 ∨ kek.length = 24 ∨ kek.length = 32)
    (hC : GoodCipher (fam kek)) (hptB : Bytes pt) (hivB : Bytes iv)
    (hiv8 : iv.length = 8) (hpt : pt.length = 8 * n) (hn : 1 ≤ n) :
    aes_wrap_key_and_iv fam kek pt iv =
      .ok (u64_to_be_u8
          (specWrap (fam kek) n (u64_from_be_u8 iv) (blocksOf n pt)).1 ++
        (specWrap (fam kek) n (u64_from_be_u8 iv) (blocksOf n pt)).2.flatten) ∧
    ∀ w, aes_wrap_key_and_iv fam kek pt iv = .ok w → w.length = 8 * (n + 1) := by
  have hdisp := dispatch_wrap_eq fam kek pt iv hk
  obtain ⟨w0, hw0, hlen0⟩ := core_wrap_length (fam kek) hC pt iv hptB hiv8 hivB
  have hn_code : pt.length / 8 = n := by
    rw [hpt]
    exact Nat.mul_div_cancel_left n (by norm_num)
  have htk : iv.take 8 = iv := by
    rw [← hiv8]
    exact List.take_length iv
  constructor
  · rw [hdisp]
    have hivnot : ¬ iv.length < 8 := by omega
    simp only [aes_wrap_key_and_iv_core, if_neg hivnot, hn_code, htk]
    rw [specWrap_eq (fam kek) n (u64_from_be_u8 iv) (blocksOf n pt)
      (blocksOf_length n pt)]
  · intro w hw
    rw [hdisp, hw0] at hw
    cases hw
    rw [hn_code] at hlen0
    exact hlen0

/-- Witness for C6: the identity cipher on one block of plaintext. -/
theorem claim_C6_wrap_matches_rfc3394_witness :
    (((List.replicate 16 6 : List Nat).length = 16 ∨
        (List.replicate 16 6 : List Nat).length = 24 ∨
        (List.replicate 16 6 : List Nat).length = 32) ∧
      GoodCipher (idFam (List.replicate 16 6)) ∧
      Bytes [10, 20, 30, 40, 50, 60, 70, 80] ∧ Bytes IV_3394 ∧
      IV_3394.length = 8 ∧
      ([10, 20, 30, 40, 50, 60, 70, 80] : List Nat).length = 8 * 1 ∧
      1 ≤ 1) ∧
    (aes_wrap_key_and_iv idFam (List.replicate 16 6)
        [10, 20, 30, 40, 50, 60, 70, 80] IV_3394 =
      .ok (u64_to_be_u8
          (specWrap (idFam (List.replicate 16 6)) 1 (u64_from_be_u8 IV_3394)
            (blocksOf 1 [10, 20, 30, 40, 50, 60, 70, 80])).1 ++
        (specWrap (idFam (List.replicate 16 6)) 1 (u64_from_be_u8 IV_3394)
          (blocksOf 1 [10, 20, 30, 40, 50, 60, 70, 80])).2.flatten) ∧
      ∀ w, aes_wrap_key_and_iv idFam (List.replicate 16 6)
          [10, 20, 30, 40, 50, 60, 70, 80] IV_3394 = .ok w →
        w.length = 8 * (1 + 1)) :=
  ⟨⟨Or.inl (by decide), idCipher_good, by decide, by decide, by decide,
      by decide, by decide⟩,
    claim_C6_wrap_matches_rfc3394 idFam (List.replicate 16 6)
      [10, 20, 30, 40, 50, 60, 70, 80] IV_3394 1 (Or.inl (by decide))
      idCipher_good (by decide) (by decide) (by decide) (by decide)
      (by decide)⟩
